import Mathlib

/-!
Verification of the transposition table of the Viridithas chess engine
(src/transpositiontable.rs): the packed 64-bit entry codec, the
fixed-point hash-to-index map, the mate-score transforms, and the
store / probe operations with their replacement and cutoff policies.

Machine integers are modelled as Nat / Int with explicit bounds; the
fallible spots of the Rust code (slice indexing, try_into().unwrap())
are modelled with Option, where none marks a panic.
-/

namespace Viri

/-- Modelled from the spec: the constant MINIMUM_MATE_SCORE from
board::evaluation, absent from the provided sources; the spec fixes it
to 30000. -/
def MINIMUM_MATE_SCORE : Int := 30000

/-- Modelled from the spec: the constant INFINITY from definitions,
absent from the provided sources; the spec fixes it to 32000. -/
def INFINITY : Int := 32000

/-- Modelled from the spec: the constant MAX_DEPTH from definitions,
absent from the provided sources; the spec fixes it to 64 plies.
Depth values (the Rust type Depth) are modelled as Int. -/
def MAX_DEPTH : Int := 64

/-- The bound flag of a table entry (Rust enum HFlag, repr(u8)). -/
inductive HFlag where
  | none
  | upperBound
  | lowerBound
  | exact
deriving DecidableEq, Repr

/-- The u8 / i32 value of an HFlag (the Rust impl_from_hflag casts:
None = 0, UpperBound = 1, LowerBound = 2, Exact = 3). -/
def HFlag.toNat : HFlag → Nat
  | .none => 0
  | .upperBound => 1
  | .lowerBound => 2
  | .exact => 3

/-- Decoding of the flag byte: the Rust decoder masks the byte down to
its low two bits (HFLAG_MASK), so only the residue mod 4 survives. -/
def HFlag.ofMaskedByte (n : Nat) : HFlag :=
  match n % 4 with
  | 0 => .none
  | 1 => .upperBound
  | 2 => .lowerBound
  | _ => .exact

/-- Modelled from the spec: moves are opaque 16-bit tokens (Rust type
Move from chessmove, absent from the provided sources); the null token
is the one whose bit pattern is all zeroes, since the spec says the
NULL entry encodes to the all-zeros word. -/
def MoveNULL : Nat := 0

/-- A decoded table entry (Rust struct TTEntry, repr(C)):
key and m are 16-bit, score is a signed 16-bit integer, depth is the
8-bit CompactDepthStorage payload, flag is the bound kind. -/
structure TTEntry where
  key : Nat
  m : Nat
  score : Int
  depth : Nat
  flag : HFlag
deriving DecidableEq, Repr

/-- The all-zero sentinel entry (Rust TTEntry::NULL). -/
def TTEntry.NULL : TTEntry :=
  { key := 0, m := 0, score := 0, depth := 0, flag := HFlag.none }

/-- The bit patterns the Rust field types guarantee: u16 key and move,
i16 score, u8 depth; the flag is legal by construction in Lean. -/
def TTEntry.Legal (e : TTEntry) : Prop :=
  e.key < 2 ^ 16 ∧ e.m < 2 ^ 16 ∧ -(2 ^ 15) ≤ e.score ∧ e.score < 2 ^ 15 ∧
    e.depth < 2 ^ 8

instance (e : TTEntry) : Decidable e.Legal := by
  unfold TTEntry.Legal; infer_instance

/-- Two's-complement bits of an i16 value. -/
def i16ToBits (s : Int) : Nat := (s % 65536).toNat

/-- The i16 value of a 16-bit pattern (two's complement). -/
def bitsToI16 (n : Nat) : Int :=
  if n % 65536 < 32768 then (n % 65536 : Nat) else (n % 65536 : Nat) - 65536

/-- Packing of a TTEntry into one 64-bit word (Rust From<TTEntry> for
u64, a transmute of the repr(C) struct: key in bits 0-15, move in bits
16-31, score in bits 32-47, depth in bits 48-55, flag in bits 56-63). -/
def TTEntry.toU64 (e : TTEntry) : Nat :=
  e.key + e.m * 2 ^ 16 + i16ToBits e.score * 2 ^ 32 + e.depth * 2 ^ 48 +
    e.flag.toNat * 2 ^ 56

/-- Unpacking of a 64-bit word into a TTEntry (Rust From<u64> for
TTEntry): the word is masked with HFLAG_MASK, which zeroes the six high
bits of the flag byte, so the flag is always a legal variant. -/
def TTEntry.fromU64 (w : Nat) : TTEntry :=
  { key := w % 2 ^ 16
    m := w / 2 ^ 16 % 2 ^ 16
    score := bitsToI16 (w / 2 ^ 32 % 2 ^ 16)
    depth := w / 2 ^ 48 % 2 ^ 8
    flag := HFlag.ofMaskedByte (w / 2 ^ 56 % 2 ^ 8) }

lemma i16ToBits_lt (s : Int) : i16ToBits s < 65536 := by
  unfold i16ToBits
  omega

lemma bitsToI16_i16ToBits (s : Int) (h1 : -(2 ^ 15) ≤ s) (h2 : s < 2 ^ 15) :
    bitsToI16 (i16ToBits s) = s := by
  unfold bitsToI16 i16ToBits
  omega

lemma i16ToBits_bitsToI16 (n : Nat) (h : n < 65536) :
    i16ToBits (bitsToI16 n) = n := by
  unfold bitsToI16 i16ToBits
  split <;> omega

lemma bitsToI16_range (n : Nat) :
    -(2 ^ 15) ≤ bitsToI16 n ∧ bitsToI16 n < 2 ^ 15 := by
  unfold bitsToI16
  split <;> omega

lemma HFlag.toNat_lt (f : HFlag) : f.toNat < 4 := by
  cases f <;> simp [HFlag.toNat]

lemma HFlag.ofMaskedByte_toNat (f : HFlag) : HFlag.ofMaskedByte f.toNat = f := by
  cases f <;> rfl

lemma HFlag.toNat_ofMaskedByte (n : Nat) : (HFlag.ofMaskedByte n).toNat = n % 4 := by
  unfold HFlag.ofMaskedByte
  split <;> simp_all [HFlag.toNat] <;> omega

lemma fromU64_toU64 (e : TTEntry) (he : e.Legal) :
    TTEntry.fromU64 e.toU64 = e := by
  obtain ⟨h1, h2, h3, h4, h5⟩ := he
  have hs := i16ToBits_lt e.score
  have hf := e.flag.toNat_lt
  unfold TTEntry.toU64 TTEntry.fromU64
  have hkey : (e.key + e.m * 2 ^ 16 + i16ToBits e.score * 2 ^ 32 +
      e.depth * 2 ^ 48 + e.flag.toNat * 2 ^ 56) % 2 ^ 16 = e.key := by omega
  have hm : (e.key + e.m * 2 ^ 16 + i16ToBits e.score * 2 ^ 32 +
      e.depth * 2 ^ 48 + e.flag.toNat * 2 ^ 56) / 2 ^ 16 % 2 ^ 16 = e.m := by omega
  have hsc : (e.key + e.m * 2 ^ 16 + i16ToBits e.score * 2 ^ 32 +
      e.depth * 2 ^ 48 + e.flag.toNat * 2 ^ 56) / 2 ^ 32 % 2 ^ 16 =
      i16ToBits e.score := by omega
  have hd : (e.key + e.m * 2 ^ 16 + i16ToBits e.score * 2 ^ 32 +
      e.depth * 2 ^ 48 + e.flag.toNat * 2 ^ 56) / 2 ^ 48 % 2 ^ 8 = e.depth := by
    omega
  have hfl : (e.key + e.m * 2 ^ 16 + i16ToBits e.score * 2 ^ 32 +
      e.depth * 2 ^ 48 + e.flag.toNat * 2 ^ 56) / 2 ^ 56 % 2 ^ 8 =
      e.flag.toNat := by omega
  rw [hkey, hm, hsc, hd, hfl, bitsToI16_i16ToBits e.score h3 h4,
    HFlag.ofMaskedByte_toNat]

lemma fromU64_legal (w : Nat) : (TTEntry.fromU64 w).Legal := by
  unfold TTEntry.fromU64 TTEntry.Legal
  dsimp only
  exact ⟨by omega, by omega, (bitsToI16_range _).1, (bitsToI16_range _).2,
    by omega⟩

lemma toU64_fromU64 (w : Nat) (hw : w < 2 ^ 64) (hf : w / 2 ^ 56 < 4) :
    TTEntry.toU64 (TTEntry.fromU64 w) = w := by
  unfold TTEntry.toU64 TTEntry.fromU64
  dsimp only
  simp only [HFlag.toNat_ofMaskedByte]
  rw [i16ToBits_bitsToI16 _ (by omega)]
  omega

/-- Mate-score transform on store (Rust normalise_mate_score): scores
above MINIMUM_MATE_SCORE gain the current ply, scores below its
negation lose it, others pass unchanged. -/
def normalise_mate_score (score : Int) (ply : Nat) : Int :=
  if score > MINIMUM_MATE_SCORE then score + ply
  else if score < -MINIMUM_MATE_SCORE then score - ply
  else score

/-- Mate-score transform on probe (Rust reconstruct_mate_score), the
inverse adjustment. -/
def reconstruct_mate_score (score : Int) (ply : Nat) : Int :=
  if score > MINIMUM_MATE_SCORE then score - ply
  else if score < -MINIMUM_MATE_SCORE then score + ply
  else score

/-- The table: the Vec of 64-bit cells, one word per entry. Atomic
access is immaterial in this single-threaded model, so a cell is a
plain Nat below 2 to the 64. -/
abbrev TTable := List Nat

/-- The fixed-point multiplication hash-to-index map (Rust
TranspositionTableView::wrap_key): the high 64 bits of the 128-bit
product of the key and the table length. -/
def wrap_key (tbl : TTable) (key : Nat) : Nat :=
  key * tbl.length / 2 ^ 64

/-- Truncation of the 64-bit key to its low 16 bits (Rust
TranspositionTable::pack_key, a cast to u16). -/
def pack_key (key : Nat) : Nat := key % 2 ^ 16

/-- The narrowing conversion of the normalised score into the i16 entry
field (Rust score.try_into().unwrap(); none marks the panic on an
out-of-range value). -/
def scoreToI16 (s : Int) : Option Int :=
  if -(2 ^ 15) ≤ s ∧ s < 2 ^ 15 then some s else none

/-- Modelled from the spec: the conversion of a Depth into the 8-bit
CompactDepthStorage (Rust depth.try_into().unwrap(); the type lives in
definitions::depth, absent from the provided sources). The spec
constrains the stored depth to the range 0 to MAX_DEPTH; none marks the
panic on an out-of-range value. -/
def depthToCompact (d : Int) : Option Nat :=
  if 0 ≤ d ∧ d ≤ MAX_DEPTH then some d.toNat else none

/-- The per-bound quality bonus used by the replacement rule (the Rust
i32::from(flag)). -/
def flagBonus (f : HFlag) : Int := f.toNat

/-- Rust TranspositionTableView::store. Loads the addressed cell,
inherits the stored move when the incoming one is the null token,
normalises the score, and overwrites the cell when the replacement rule
fires. none models a panic: the slice indexing on an out-of-range
index, or a failing narrowing conversion. -/
def store (tbl : TTable) (ROOT : Bool) (key : Nat) (ply : Nat)
    (best_move : Nat) (score : Int) (flag : HFlag) (depth : Int) :
    Option TTable :=
  let index := wrap_key tbl key
  let key16 := pack_key key
  match tbl[index]? with
  | Option.none => Option.none
  | some cell =>
    let entry := TTEntry.fromU64 cell
    let best_move := if best_move = MoveNULL then entry.m else best_move
    let score := normalise_mate_score score ply
    let insert_depth := depth + flagBonus flag
    let record_depth := (entry.depth : Int) + flagBonus entry.flag
    if ROOT = true ∨ entry.key ≠ key16 ∨
        (flag = HFlag.exact ∧ entry.flag ≠ HFlag.exact) ∨
        insert_depth * 3 ≥ record_depth * 2 then
      match scoreToI16 score, depthToCompact depth with
      | some s, some d =>
        some (tbl.set index (TTEntry.toU64
          { key := key16, m := best_move, score := s, depth := d,
            flag := flag }))
      | _, _ => Option.none
    else
      some tbl

/-- The hit payload (Rust struct TTHit). -/
structure TTHit where
  tt_move : Nat
  tt_depth : Int
  tt_bound : HFlag
  tt_value : Int
deriving DecidableEq, Repr

/-- The outcome of a probe (Rust enum ProbeResult). -/
inductive ProbeResult where
  | Cutoff (v : Int)
  | Hit (h : TTHit)
  | Nothing
deriving DecidableEq, Repr

/-- Rust TranspositionTableView::probe. none models the panic of the
slice indexing on an out-of-range index. -/
def probe (tbl : TTable) (ROOT : Bool) (key : Nat) (ply : Nat)
    (alpha beta : Int) (depth : Int) : Option ProbeResult :=
  let index := wrap_key tbl key
  let key16 := pack_key key
  match tbl[index]? with
  | Option.none => Option.none
  | some cell =>
    let entry := TTEntry.fromU64 cell
    if entry.key ≠ key16 then some ProbeResult.Nothing
    else
      let m := entry.m
      let e_depth : Int := entry.depth
      if e_depth < depth then
        some (ProbeResult.Hit
          { tt_move := m, tt_depth := e_depth, tt_bound := entry.flag,
            tt_value := entry.score })
      else
        let score := reconstruct_mate_score entry.score ply
        match entry.flag with
        | HFlag.none => some ProbeResult.Nothing
        | HFlag.upperBound =>
          if ROOT = false ∧ score ≤ alpha then
            some (ProbeResult.Cutoff alpha)
          else
            some (ProbeResult.Hit
              { tt_move := m, tt_depth := e_depth,
                tt_bound := HFlag.upperBound, tt_value := entry.score })
        | HFlag.lowerBound =>
          if ROOT = false ∧ score ≥ beta then
            some (ProbeResult.Cutoff beta)
          else
            some (ProbeResult.Hit
              { tt_move := m, tt_depth := e_depth,
                tt_bound := HFlag.lowerBound, tt_value := entry.score })
        | HFlag.exact =>
          if ROOT = true then
            some (ProbeResult.Hit
              { tt_move := m, tt_depth := e_depth,
                tt_bound := HFlag.exact, tt_value := entry.score })
          else
            some (ProbeResult.Cutoff score)

lemma wrap_key_lt (tbl : TTable) (key : Nat) (hk : key < 2 ^ 64)
    (hn : 1 ≤ tbl.length) : wrap_key tbl key < tbl.length := by
  unfold wrap_key
  rw [Nat.div_lt_iff_lt_mul (by positivity)]
  calc key * tbl.length < 2 ^ 64 * tbl.length :=
        mul_lt_mul_of_pos_right hk (by omega)
    _ = tbl.length * 2 ^ 64 := Nat.mul_comm _ _

lemma normalise_mate_score_zero (s : Int) : normalise_mate_score s 0 = s := by
  unfold normalise_mate_score
  split_ifs <;> simp

lemma reconstruct_mate_score_zero (s : Int) :
    reconstruct_mate_score s 0 = s := by
  unfold reconstruct_mate_score
  split_ifs <;> simp

lemma wrap_key_set (tbl : TTable) (i a key : Nat) :
    wrap_key (tbl.set i a) key = wrap_key tbl key := by
  unfold wrap_key
  rw [List.length_set]

lemma probe_exact_cutoff (tbl : TTable) (key ply : Nat)
    (alpha beta depth : Int) (cell : Nat)
    (hcell : tbl[wrap_key tbl key]? = some cell)
    (hkey : (TTEntry.fromU64 cell).key = pack_key key)
    (hdeep : ¬((TTEntry.fromU64 cell).depth : Int) < depth)
    (hflag : (TTEntry.fromU64 cell).flag = HFlag.exact) :
    probe tbl false key ply alpha beta depth = some (ProbeResult.Cutoff
      (reconstruct_mate_score (TTEntry.fromU64 cell).score ply)) := by
  simp only [probe, hcell, hkey, hflag]
  rw [if_neg (by simp), if_neg hdeep, if_neg (by simp)]

/-- Claim C1: the entry codec is a round-trip bijection on legal
values: decoding inverts encoding on every legal entry, decoding any
64-bit word yields a legal entry (the decoder masks the flag byte down
to its low two bits), and encoding inverts decoding on every word whose
flag byte is already one of 0, 1, 2, 3. -/
theorem codec_bijection :
    (∀ e : TTEntry, e.Legal → TTEntry.fromU64 e.toU64 = e) ∧
    (∀ w : Nat, w < 2 ^ 64 → (TTEntry.fromU64 w).Legal) ∧
    (∀ w : Nat, w < 2 ^ 64 → w / 2 ^ 56 < 4 →
      TTEntry.toU64 (TTEntry.fromU64 w) = w) :=
  ⟨fun e he => fromU64_toU64 e he,
   fun w _ => fromU64_legal w,
   fun w hw hf => toU64_fromU64 w hw hf⟩

/-- Witness for C1 at a concrete entry and a concrete word with a
legal flag byte. -/
theorem codec_bijection_witness :
    (TTEntry.Legal ⟨1, 2, -3, 4, HFlag.exact⟩ ∧
      81985529216486895 < 2 ^ 64 ∧ 81985529216486895 / 2 ^ 56 < 4) ∧
    TTEntry.fromU64 (TTEntry.toU64 ⟨1, 2, -3, 4, HFlag.exact⟩) =
      (⟨1, 2, -3, 4, HFlag.exact⟩ : TTEntry) ∧
    (TTEntry.fromU64 81985529216486895).Legal ∧
    TTEntry.toU64 (TTEntry.fromU64 81985529216486895) = 81985529216486895 :=
  ⟨⟨by decide, by decide, by decide⟩,
   codec_bijection.1 _ (by decide),
   codec_bijection.2.1 81985529216486895 (by decide),
   codec_bijection.2.2 81985529216486895 (by decide) (by decide)⟩

/-- Claim C2: the mate-score transforms round-trip: for every score in
the search range and every ply up to MAX_DEPTH, reconstructing a
normalised score at the same ply gives the score back. -/
theorem mate_score_roundtrip (s : Int) (ply : Nat) (h1 : -INFINITY ≤ s)
    (h2 : s ≤ INFINITY) (hp : (ply : Int) ≤ MAX_DEPTH) :
    reconstruct_mate_score (normalise_mate_score s ply) ply = s := by
  unfold reconstruct_mate_score normalise_mate_score MINIMUM_MATE_SCORE at *
  split_ifs <;> omega

/-- Witness for C2 at a concrete mate score and ply. -/
theorem mate_score_roundtrip_witness :
    (-INFINITY ≤ (31000 : Int) ∧ (31000 : Int) ≤ INFINITY ∧
      ((3 : Nat) : Int) ≤ MAX_DEPTH) ∧
    reconstruct_mate_score (normalise_mate_score 31000 3) 3 = 31000 :=
  ⟨⟨by decide, by decide, by decide⟩,
   mate_score_roundtrip 31000 3 (by decide) (by decide) (by decide)⟩

/-- Claim C9: the fixed-point hash-to-index map sends every 64-bit key
into the range below the table length, for every nonempty table. -/
theorem wrap_key_range (tbl : TTable) (key : Nat) (hk : key < 2 ^ 64)
    (hn : 1 ≤ tbl.length) : wrap_key tbl key < tbl.length :=
  wrap_key_lt tbl key hk hn

/-- Witness for C9 on a concrete table and key. -/
theorem wrap_key_range_witness :
    (3735928559 < 2 ^ 64 ∧ 1 ≤ ([0, 0, 0] : TTable).length) ∧
    wrap_key ([0, 0, 0] : TTable) 3735928559 < ([0, 0, 0] : TTable).length :=
  ⟨⟨by decide, by decide⟩,
   wrap_key_range ([0, 0, 0] : TTable) 3735928559 (by decide) (by decide)⟩

lemma store_write (tbl : TTable) (ROOT : Bool) (key ply best_move : Nat)
    (score : Int) (flag : HFlag) (depth : Int) (cell : Nat) (s16 : Int)
    (d8 : Nat) (hcell : tbl[wrap_key tbl key]? = some cell)
    (hrepl : ROOT = true ∨ (TTEntry.fromU64 cell).key ≠ pack_key key ∨
      (flag = HFlag.exact ∧ (TTEntry.fromU64 cell).flag ≠ HFlag.exact) ∨
      (depth + flagBonus flag) * 3 ≥
        (((TTEntry.fromU64 cell).depth : Int) +
          flagBonus (TTEntry.fromU64 cell).flag) * 2)
    (hs : scoreToI16 (normalise_mate_score score ply) = some s16)
    (hd : depthToCompact depth = some d8) :
    store tbl ROOT key ply best_move score flag depth =
      some (tbl.set (wrap_key tbl key) (TTEntry.toU64
        ⟨pack_key key,
          if best_move = MoveNULL then (TTEntry.fromU64 cell).m
            else best_move,
          s16, d8, flag⟩)) := by
  simp only [store, hcell]
  rw [if_pos hrepl, hs, hd]

lemma store_skip (tbl : TTable) (ROOT : Bool) (key ply best_move : Nat)
    (score : Int) (flag : HFlag) (depth : Int) (cell : Nat)
    (hcell : tbl[wrap_key tbl key]? = some cell)
    (hrepl : ¬(ROOT = true ∨ (TTEntry.fromU64 cell).key ≠ pack_key key ∨
      (flag = HFlag.exact ∧ (TTEntry.fromU64 cell).flag ≠ HFlag.exact) ∨
      (depth + flagBonus flag) * 3 ≥
        (((TTEntry.fromU64 cell).depth : Int) +
          flagBonus (TTEntry.fromU64 cell).flag) * 2)) :
    store tbl ROOT key ply best_move score flag depth = some tbl := by
  simp only [store, hcell]
  rw [if_neg hrepl]

/-- Claim C3: the replacement decision of store: with the per-bound
bonus Exact 3, LowerBound 2, UpperBound 1, None 0, the slot is
overwritten exactly when ROOT holds, or the truncated keys differ, or
the incoming flag promotes to Exact, or three times the incoming
quality reaches twice the resident quality; otherwise the table is left
unchanged. -/
theorem store_replacement_decision (tbl : TTable) (ROOT : Bool)
    (key ply best_move : Nat) (score : Int) (flag : HFlag) (depth : Int)
    (cell : Nat) (s16 : Int) (d8 : Nat)
    (hcell : tbl[wrap_key tbl key]? = some cell)
    (hs : scoreToI16 (normalise_mate_score score ply) = some s16)
    (hd : depthToCompact depth = some d8) :
    ((ROOT = true ∨ (TTEntry.fromU64 cell).key ≠ pack_key key ∨
        (flag = HFlag.exact ∧ (TTEntry.fromU64 cell).flag ≠ HFlag.exact) ∨
        (depth + flagBonus flag) * 3 ≥
          (((TTEntry.fromU64 cell).depth : Int) +
            flagBonus (TTEntry.fromU64 cell).flag) * 2) →
      store tbl ROOT key ply best_move score flag depth =
        some (tbl.set (wrap_key tbl key) (TTEntry.toU64
          ⟨pack_key key,
            if best_move = MoveNULL then (TTEntry.fromU64 cell).m
              else best_move,
            s16, d8, flag⟩))) ∧
    (¬(ROOT = true ∨ (TTEntry.fromU64 cell).key ≠ pack_key key ∨
        (flag = HFlag.exact ∧ (TTEntry.fromU64 cell).flag ≠ HFlag.exact) ∨
        (depth + flagBonus flag) * 3 ≥
          (((TTEntry.fromU64 cell).depth : Int) +
            flagBonus (TTEntry.fromU64 cell).flag) * 2) →
      store tbl ROOT key ply best_move score flag depth = some tbl) :=
  ⟨fun hrepl => store_write tbl ROOT key ply best_move score flag depth
      cell s16 d8 hcell hrepl hs hd,
   fun hrepl => store_skip tbl ROOT key ply best_move score flag depth
      cell hcell hrepl⟩

/-- Witness for C3 on a concrete slot: a LowerBound depth 10 entry
replaces a same-key Exact depth 10 entry, since 36 is at least 26. -/
theorem store_replacement_decision_witness :
    store [TTEntry.toU64 ⟨5, 9, 10, 10, HFlag.exact⟩] false 5 0 7 20
        HFlag.lowerBound 10 =
      some [TTEntry.toU64 ⟨5, 7, 20, 10, HFlag.lowerBound⟩] := by
  have h := store_replacement_decision
    [TTEntry.toU64 ⟨5, 9, 10, 10, HFlag.exact⟩] false 5 0 7 20
    HFlag.lowerBound 10 (TTEntry.toU64 ⟨5, 9, 10, 10, HFlag.exact⟩) 20 10
    (by decide) (by decide) (by decide)
  rw [h.1 (by decide)]
  decide

/-- Claim C8: null-move inheritance: when store is handed the null
move token and the replacement decision fires, the written entry
carries the move of the entry previously resident in the slot. -/
theorem store_null_move_inheritance (tbl : TTable) (ROOT : Bool)
    (key ply : Nat) (score : Int) (flag : HFlag) (depth : Int)
    (cell : Nat) (s16 : Int) (d8 : Nat)
    (hcell : tbl[wrap_key tbl key]? = some cell)
    (hrepl : ROOT = true ∨ (TTEntry.fromU64 cell).key ≠ pack_key key ∨
      (flag = HFlag.exact ∧ (TTEntry.fromU64 cell).flag ≠ HFlag.exact) ∨
      (depth + flagBonus flag) * 3 ≥
        (((TTEntry.fromU64 cell).depth : Int) +
          flagBonus (TTEntry.fromU64 cell).flag) * 2)
    (hs : scoreToI16 (normalise_mate_score score ply) = some s16)
    (hd : depthToCompact depth = some d8) :
    store tbl ROOT key ply MoveNULL score flag depth =
      some (tbl.set (wrap_key tbl key) (TTEntry.toU64
        ⟨pack_key key, (TTEntry.fromU64 cell).m, s16, d8, flag⟩)) := by
  rw [store_write tbl ROOT key ply MoveNULL score flag depth cell s16 d8
    hcell hrepl hs hd]
  simp

/-- Witness for C8, the S6 scenario of the spec: storing the null move
with bound LowerBound over a same-key Exact entry with move 9 leaves a
slot whose move is still 9 and whose bound is LowerBound. -/
theorem store_null_move_inheritance_witness :
    store [TTEntry.toU64 ⟨5, 9, 10, 10, HFlag.exact⟩] false 5 0 MoveNULL
        20 HFlag.lowerBound 10 =
      some [TTEntry.toU64 ⟨5, 9, 20, 10, HFlag.lowerBound⟩] := by
  have h := store_null_move_inheritance
    [TTEntry.toU64 ⟨5, 9, 10, 10, HFlag.exact⟩] false 5 0 20
    HFlag.lowerBound 10 (TTEntry.toU64 ⟨5, 9, 10, 10, HFlag.exact⟩) 20 10
    (by decide) (by decide) (by decide) (by decide)
  rw [h]
  decide

/-- Claim C4: bound semantics of probe on a key-matching entry of
sufficient depth at a non-root node: an UpperBound entry cuts to alpha
exactly when its ply-reconstructed score is at most alpha, and
otherwise yields a Hit with the raw stored score; a LowerBound entry
cuts to beta exactly when its ply-reconstructed score is at least beta,
and otherwise yields a Hit with the raw stored score. -/
theorem probe_bound_semantics (tbl : TTable) (key ply : Nat)
    (alpha beta depth : Int) (cell : Nat)
    (hcell : tbl[wrap_key tbl key]? = some cell)
    (hkey : (TTEntry.fromU64 cell).key = pack_key key)
    (hdeep : ¬((TTEntry.fromU64 cell).depth : Int) < depth) :
    ((TTEntry.fromU64 cell).flag = HFlag.upperBound →
      probe tbl false key ply alpha beta depth = some
        (if reconstruct_mate_score (TTEntry.fromU64 cell).score ply ≤ alpha
          then ProbeResult.Cutoff alpha
          else ProbeResult.Hit ⟨(TTEntry.fromU64 cell).m,
            ((TTEntry.fromU64 cell).depth : Int), HFlag.upperBound,
            (TTEntry.fromU64 cell).score⟩)) ∧
    ((TTEntry.fromU64 cell).flag = HFlag.lowerBound →
      probe tbl false key ply alpha beta depth = some
        (if reconstruct_mate_score (TTEntry.fromU64 cell).score ply ≥ beta
          then ProbeResult.Cutoff beta
          else ProbeResult.Hit ⟨(TTEntry.fromU64 cell).m,
            ((TTEntry.fromU64 cell).depth : Int), HFlag.lowerBound,
            (TTEntry.fromU64 cell).score⟩)) := by
  constructor
  · intro hf
    simp only [probe, hcell, hkey, hf]
    rw [if_neg (by simp), if_neg hdeep]
    by_cases hc :
      reconstruct_mate_score (TTEntry.fromU64 cell).score ply ≤ alpha
    · simp [hc]
    · simp [hc]
  · intro hf
    simp only [probe, hcell, hkey, hf]
    rw [if_neg (by simp), if_neg hdeep]
    by_cases hc :
      reconstruct_mate_score (TTEntry.fromU64 cell).score ply ≥ beta
    · simp [hc]
    · simp [hc]

/-- Claim C6: depth gating: a key-matching entry shallower than the
requested depth yields a Hit carrying the stored move, the stored
depth, the stored bound, and the raw stored score, with no mate
reconstruction. -/
theorem probe_depth_gating (tbl : TTable) (ROOT : Bool) (key ply : Nat)
    (alpha beta depth : Int) (cell : Nat)
    (hcell : tbl[wrap_key tbl key]? = some cell)
    (hkey : (TTEntry.fromU64 cell).key = pack_key key)
    (hshallow : ((TTEntry.fromU64 cell).depth : Int) < depth) :
    probe tbl ROOT key ply alpha beta depth = some (ProbeResult.Hit
      ⟨(TTEntry.fromU64 cell).m, ((TTEntry.fromU64 cell).depth : Int),
        (TTEntry.fromU64 cell).flag, (TTEntry.fromU64 cell).score⟩) := by
  simp only [probe, hcell, hkey]
  rw [if_neg (by simp), if_pos hshallow]

/-- Witness for C6, the depth gating scenario of the spec: an Exact
entry of depth 5 probed at depth 10 yields a Hit with its move and its
depth 5. -/
theorem probe_depth_gating_witness :
    probe [TTEntry.toU64 ⟨48879, 7, 42, 5, HFlag.exact⟩] false 3735928559
        0 (-100) 100 10 =
      some (ProbeResult.Hit ⟨7, 5, HFlag.exact, 42⟩) := by
  have h := probe_depth_gating [TTEntry.toU64 ⟨48879, 7, 42, 5, HFlag.exact⟩]
    false 3735928559 0 (-100) 100 10
    (TTEntry.toU64 ⟨48879, 7, 42, 5, HFlag.exact⟩)
    (by decide) (by decide) (by decide)
  rw [h]
  decide

/-- Claim C7: with ROOT true, probe never returns a Cutoff: every
normal return is a Hit or a Nothing. -/
theorem probe_root_never_cutoff (tbl : TTable) (key ply : Nat)
    (alpha beta depth : Int) (r : ProbeResult)
    (h : probe tbl true key ply alpha beta depth = some r) :
    r = ProbeResult.Nothing ∨ ∃ hh : TTHit, r = ProbeResult.Hit hh := by
  simp only [probe] at h
  repeat' split at h
  all_goals
    first
      | exact Or.inl (Option.some_injective _ h).symm
      | exact Or.inr ⟨_, (Option.some_injective _ h).symm⟩
      | simp_all

/-- Witness for C4, the S5 scenario of the spec: an UpperBound entry
with score -50 and depth 10 cuts to alpha at alpha -20, and is a Hit
at alpha -100. -/
theorem probe_bound_semantics_witness :
    probe [TTEntry.toU64 ⟨5, 7, -50, 10, HFlag.upperBound⟩] false 5 0
        (-20) 100 10 = some (ProbeResult.Cutoff (-20)) ∧
    probe [TTEntry.toU64 ⟨5, 7, -50, 10, HFlag.upperBound⟩] false 5 0
        (-100) 100 10 =
      some (ProbeResult.Hit ⟨7, 10, HFlag.upperBound, -50⟩) := by
  constructor
  · have h := (probe_bound_semantics
      [TTEntry.toU64 ⟨5, 7, -50, 10, HFlag.upperBound⟩] 5 0 (-20) 100 10
      (TTEntry.toU64 ⟨5, 7, -50, 10, HFlag.upperBound⟩)
      (by decide) (by decide) (by decide)).1 (by decide)
    rw [h]
    decide
  · have h := (probe_bound_semantics
      [TTEntry.toU64 ⟨5, 7, -50, 10, HFlag.upperBound⟩] 5 0 (-100) 100 10
      (TTEntry.toU64 ⟨5, 7, -50, 10, HFlag.upperBound⟩)
      (by decide) (by decide) (by decide)).1 (by decide)
    rw [h]
    decide

/-- Witness for C7: probing an Exact entry at the root yields a Hit,
where a non-root probe of the same cell would cut. -/
theorem probe_root_never_cutoff_witness :
    probe [TTEntry.toU64 ⟨0, 7, 42, 5, HFlag.exact⟩] true 0 0 (-100) 100
        5 = some (ProbeResult.Hit ⟨7, 5, HFlag.exact, 42⟩) ∧
    (ProbeResult.Hit ⟨7, 5, HFlag.exact, 42⟩ = ProbeResult.Nothing ∨
      ∃ hh : TTHit, ProbeResult.Hit ⟨7, 5, HFlag.exact, 42⟩ =
        ProbeResult.Hit hh) :=
  ⟨by decide,
   probe_root_never_cutoff [TTEntry.toU64 ⟨0, 7, 42, 5, HFlag.exact⟩] 0 0
    (-100) 100 5 (ProbeResult.Hit ⟨7, 5, HFlag.exact, 42⟩) (by decide)⟩

/-- Counterexample to C5 as stated: when the addressed slot already
holds a same-key Exact entry whose quality wins the replacement
comparison, the store is dropped, and the probe serves the old score 7
rather than the stored 42. Here the resident entry has depth 64, so
three times the incoming quality, 9, is below twice the resident
quality, 134. -/
theorem probe_after_store_exact_counterexample :
    store [TTEntry.toU64 ⟨0, 0, 7, 64, HFlag.exact⟩] false 0 0 5 42
        HFlag.exact 0 = some [TTEntry.toU64 ⟨0, 0, 7, 64, HFlag.exact⟩] ∧
    probe [TTEntry.toU64 ⟨0, 0, 7, 64, HFlag.exact⟩] false 0 0 (-100) 100
        0 = some (ProbeResult.Cutoff 7) ∧
    probe [TTEntry.toU64 ⟨0, 0, 7, 64, HFlag.exact⟩] false 0 0 (-100) 100
        0 ≠ some (ProbeResult.Cutoff 42) := by
  refine ⟨by decide, by decide, by decide⟩

/-- Claim C5 as amended: after a non-root store of an Exact entry with
ply 0, a non-mate score strictly inside the window, and a depth within
range, a non-root probe at the same key, ply 0, the same window, and a
requested depth at most the stored depth returns a cutoff with the
stored score — provided the addressed slot does not already hold a
same-key Exact entry winning the quality comparison, so that the store
actually writes (any fresh or cleared slot qualifies). -/
theorem probe_after_store_exact (tbl : TTable) (key m : Nat)
    (s d dq alpha beta : Int) (cell : Nat)
    (hcell : tbl[wrap_key tbl key]? = some cell)
    (hm : m < 2 ^ 16)
    (hrepl : (TTEntry.fromU64 cell).key ≠ pack_key key ∨
      (TTEntry.fromU64 cell).flag ≠ HFlag.exact ∨
      (d + 3) * 3 ≥ (((TTEntry.fromU64 cell).depth : Int) + 3) * 2)
    (hs1 : -MINIMUM_MATE_SCORE ≤ s) (hs2 : s ≤ MINIMUM_MATE_SCORE)
    (ha : alpha < s) (hb : s < beta)
    (hq0 : 0 ≤ dq) (hqd : dq ≤ d) (hdm : d ≤ MAX_DEPTH) :
    ∃ tbl2, store tbl false key 0 m s HFlag.exact d = some tbl2 ∧
      probe tbl2 false key 0 alpha beta dq =
        some (ProbeResult.Cutoff s) := by
  have hsc : scoreToI16 (normalise_mate_score s 0) = some s := by
    rw [normalise_mate_score_zero]
    unfold scoreToI16
    unfold MINIMUM_MATE_SCORE at hs1 hs2
    rw [if_pos (by omega)]
  have hdc : depthToCompact d = some d.toNat := by
    unfold depthToCompact
    rw [if_pos ⟨by omega, hdm⟩]
  have hD : false = true ∨ (TTEntry.fromU64 cell).key ≠ pack_key key ∨
      (HFlag.exact = HFlag.exact ∧
        (TTEntry.fromU64 cell).flag ≠ HFlag.exact) ∨
      (d + flagBonus HFlag.exact) * 3 ≥
        (((TTEntry.fromU64 cell).depth : Int) +
          flagBonus (TTEntry.fromU64 cell).flag) * 2 := by
    rcases hrepl with h | h | h
    · exact Or.inr (Or.inl h)
    · exact Or.inr (Or.inr (Or.inl ⟨rfl, h⟩))
    · by_cases hf : (TTEntry.fromU64 cell).flag = HFlag.exact
      · refine Or.inr (Or.inr (Or.inr ?_))
        rw [hf]
        simpa [flagBonus, HFlag.toNat] using h
      · exact Or.inr (Or.inr (Or.inl ⟨rfl, hf⟩))
  have hw := store_write tbl false key 0 m s HFlag.exact d cell s d.toNat
    hcell hD hsc hdc
  refine ⟨_, hw, ?_⟩
  have hleg : TTEntry.Legal ⟨pack_key key,
      if m = MoveNULL then (TTEntry.fromU64 cell).m else m, s, d.toNat,
      HFlag.exact⟩ := by
    refine ⟨?_, ?_, ?_, ?_, ?_⟩
    · unfold pack_key
      exact Nat.mod_lt _ (by norm_num)
    · dsimp only
      split
      · exact (fromU64_legal cell).2.1
      · exact hm
    · unfold MINIMUM_MATE_SCORE at hs1
      dsimp only
      omega
    · unfold MINIMUM_MATE_SCORE at hs2
      dsimp only
      omega
    · unfold MAX_DEPTH at hdm
      dsimp only
      omega
  have hfrom := fromU64_toU64 _ hleg
  have hidx : wrap_key tbl key < tbl.length :=
    (List.getElem?_eq_some.mp hcell).1
  have hcell2 : (tbl.set (wrap_key tbl key) (TTEntry.toU64 ⟨pack_key key,
      if m = MoveNULL then (TTEntry.fromU64 cell).m else m, s, d.toNat,
      HFlag.exact⟩))[wrap_key (tbl.set (wrap_key tbl key)
        (TTEntry.toU64 ⟨pack_key key,
          if m = MoveNULL then (TTEntry.fromU64 cell).m else m, s,
          d.toNat, HFlag.exact⟩)) key]? =
      some (TTEntry.toU64 ⟨pack_key key,
        if m = MoveNULL then (TTEntry.fromU64 cell).m else m, s, d.toNat,
        HFlag.exact⟩) := by
    rw [wrap_key_set]
    exact List.getElem?_set_self hidx
  have hp := probe_exact_cutoff (tbl.set (wrap_key tbl key)
      (TTEntry.toU64 ⟨pack_key key,
        if m = MoveNULL then (TTEntry.fromU64 cell).m else m, s, d.toNat,
        HFlag.exact⟩)) key 0 alpha beta dq _ hcell2
    (by rw [hfrom]) (by rw [hfrom]; dsimp only; omega) (by rw [hfrom])
  rw [hp, hfrom]
  dsimp only
  rw [reconstruct_mate_score_zero]

/-- Witness for the amended C5, the S2 scenario of the spec on a fresh
one-slot table: store Exact score 42 depth 8, then probe the same key
at depth 4 inside the window and get a cutoff with 42. -/
theorem probe_after_store_exact_witness :
    ∃ tbl2, store [0] false 3735928559 0 7 42 HFlag.exact 8 = some tbl2 ∧
      probe tbl2 false 3735928559 0 (-100) 100 4 =
        some (ProbeResult.Cutoff 42) :=
  probe_after_store_exact [0] 3735928559 7 42 8 4 (-100) 100 0
    (by decide) (by decide) (by decide) (by decide) (by decide)
    (by decide) (by decide) (by decide) (by decide) (by decide)

/-- Counterexample to C10 as stated: on the freshly constructed table
of length zero, before any resize, both store and probe reach the
out-of-range slot access, modelled as none, even though depth, ply,
score and window all satisfy the documented preconditions. -/
theorem store_probe_empty_counterexample :
    store ([] : TTable) false 0 0 0 0 HFlag.exact 0 = Option.none ∧
    probe ([] : TTable) false 0 0 (-1) 1 0 = Option.none := by
  exact ⟨rfl, rfl⟩

/-- Claim C10 as amended: on every table of length at least one, for
every 64-bit key, depth in range, and a normalised score fitting a
signed 16-bit integer, store and probe complete normally: no panic
branch is reachable. The freshly constructed length-zero table is
excluded, since there both operations hit the out-of-range slot
access. -/
theorem store_probe_total (tbl : TTable) (ROOT RP : Bool)
    (key ply best_move : Nat) (score alpha beta : Int) (flag : HFlag)
    (depth : Int) (hlen : 1 ≤ tbl.length) (hk : key < 2 ^ 64)
    (hd0 : 0 ≤ depth) (hd1 : depth ≤ MAX_DEPTH)
    (hs1 : -(2 ^ 15) ≤ normalise_mate_score score ply)
    (hs2 : normalise_mate_score score ply < 2 ^ 15) :
    (∃ t2, store tbl ROOT key ply best_move score flag depth = some t2) ∧
    (∃ r, probe tbl RP key ply alpha beta depth = some r) := by
  have hidx := wrap_key_lt tbl key hk hlen
  obtain ⟨cell, hcell⟩ : ∃ c, tbl[wrap_key tbl key]? = some c :=
    ⟨_, List.getElem?_eq_getElem hidx⟩
  have hsc : scoreToI16 (normalise_mate_score score ply) =
      some (normalise_mate_score score ply) := by
    unfold scoreToI16
    rw [if_pos ⟨hs1, hs2⟩]
  have hdc : depthToCompact depth = some depth.toNat := by
    unfold depthToCompact
    rw [if_pos ⟨hd0, hd1⟩]
  constructor
  · by_cases hC : ROOT = true ∨ (TTEntry.fromU64 cell).key ≠ pack_key key ∨
      (flag = HFlag.exact ∧ (TTEntry.fromU64 cell).flag ≠ HFlag.exact) ∨
      (depth + flagBonus flag) * 3 ≥
        (((TTEntry.fromU64 cell).depth : Int) +
          flagBonus (TTEntry.fromU64 cell).flag) * 2
    · exact ⟨_, store_write tbl ROOT key ply best_move score flag depth
        cell (normalise_mate_score score ply) depth.toNat hcell hC hsc hdc⟩
    · exact ⟨_, store_skip tbl ROOT key ply best_move score flag depth
        cell hcell hC⟩
  · simp only [probe, hcell]
    repeat' split
    all_goals exact ⟨_, rfl⟩

/-- Witness for the amended C10 on a concrete one-slot table. -/
theorem store_probe_total_witness :
    (∃ t2, store [0] false 3735928559 0 7 42 HFlag.exact 8 = some t2) ∧
    (∃ r, probe [0] false 3735928559 0 (-100) 100 8 = some r) :=
  store_probe_total [0] false false 3735928559 0 7 42 (-100) 100
    HFlag.exact 8 (by decide) (by decide) (by decide) (by decide)
    (by decide) (by decide)

end Viri
